import Mathlib

set_option maxHeartbeats 1000000

/-
Shallow embedding of the p2p-sharing daemon (Rust sources under src/).

Modelling conventions:
* UUIDs and socket addresses are modelled as `Nat`.
* Byte buffers are `List Nat`.
* SHA-256 is modelled as an abstract parameter `hash : List Nat → String`;
  the incremental hasher of the code feeds exactly the bytes written, so its
  final digest is `hash` of the concatenation of those bytes.
* Wall-clock instants (`chrono::Utc::now`, `std::time::SystemTime`) are
  modelled as `Nat` seconds passed in explicitly.
* `HashMap` is modelled as an association list with map-style operations.
-/

namespace P2PSharing

/-- Transfer protocol messages (src/transfer.rs, `TransferMessage`). -/
inductive TransferMessage where
  | Request (transfer_id : Nat) (filename file_path : String) (file_size : Nat)
      (file_checksum : Option String) (mime_type : Option String)
  | Accept (transfer_id : Nat)
  | Reject (transfer_id : Nat) (reason : Option String)
  | Chunk (transfer_id : Nat) (chunk_index : Nat) (data : List Nat)
  | Complete (transfer_id : Nat) (file_checksum : Option String)
  | Error (transfer_id : Nat) (message : String)
  | Pause (transfer_id : Nat)
  | Resume (transfer_id : Nat)
  | Cancel (transfer_id : Nat)
deriving DecidableEq, Repr

/-- Sender streaming loop of `TransferService::send_file` (src/transfer.rs:293-327).
Each iteration reads `n = min (chunkSize, bytes remaining)` bytes into the buffer;
`n = 0` breaks the loop, otherwise a `Chunk` with the current index is emitted and
the index is incremented. -/
def senderChunks (tid chunkSize : Nat) (content : List Nat) (idx : Nat) :
    List TransferMessage :=
  if h : min chunkSize content.length = 0 then []
  else
    TransferMessage.Chunk tid idx (content.take chunkSize) ::
      senderChunks tid chunkSize (content.drop chunkSize) (idx + 1)
termination_by content.length
decreasing_by
  simp only [List.length_drop]
  omega

/-- Result of `TransferService::send_file` after the handshake: the `Request` it
sent, the post-handshake message stream (chunks then `Complete` carrying the
precomputed checksum, src/transfer.rs:329-333), and the returned transfer id
(src/transfer.rs:350). -/
structure SendResult where
  request : TransferMessage
  stream : List TransferMessage
  ret : Nat
deriving Repr

/-- Sender of src/transfer.rs:222-351. The checksum is precomputed over the whole
file (`utils::calculate_file_checksum`, which hashes the full byte stream), the
`Request` carries the file size and that checksum, then the chunks are streamed
and a final `Complete` repeats the checksum. -/
def sendFile (hash : List Nat → String) (tid chunkSize : Nat)
    (filename file_path : String) (mime : Option String) (content : List Nat) :
    SendResult :=
  { request := TransferMessage.Request tid filename file_path content.length
      (some (hash content)) mime
  , stream := senderChunks tid chunkSize content 0
      ++ [TransferMessage.Complete tid (some (hash content))]
  , ret := tid }

/-- Outcome of the receiver (src/transfer.rs:102-220): `finalized` carries the
bytes written to `downloads/<filename>`, the hex digest computed from the
streaming hasher and the `verified` flag; `cancelled` is the early return on a
matching `Cancel`; `starved` models the inactivity timeout while bytes are still
missing; `noRequest` is the silent fall-through when the first message is not a
`Request`. -/
inductive RecvOutcome where
  | finalized (written : List Nat) (calculated : String) (verified : Bool)
  | cancelled
  | starved
  | noRequest
deriving DecidableEq, Repr

/-- Finalization of the receiver (src/transfer.rs:190-214): compute
`calculated = hex(hasher)` over the written bytes; `verified` compares it with
the advertised checksum when one was carried by the `Request`, else `true`. -/
def finalizeReceive (hash : List Nat → String) (expected : Option String)
    (written : List Nat) : RecvOutcome :=
  let calculated := hash written
  let verified : Bool :=
    match expected with
    | some e => calculated == e
    | none => true
  RecvOutcome.finalized written calculated verified

/-- Receive loop of `TransferService::handle_receiver` (src/transfer.rs:130-214).
The `while received_size < file_size` condition is checked before every read; a
matching in-order `Chunk` appends its data, feeds the hasher and advances the
counters, a mismatched id or index is discarded, a matching `Complete` breaks to
finalization, a matching `Cancel` returns, and everything else is ignored. -/
def recvLoop (hash : List Nat → String) (tid fileSize : Nat)
    (expected : Option String) :
    List Nat → Nat → Nat → List TransferMessage → RecvOutcome
  | written, receivedSize, _, [] =>
    if fileSize ≤ receivedSize then finalizeReceive hash expected written
    else RecvOutcome.starved
  | written, receivedSize, chunkIndex, msg :: rest =>
    if fileSize ≤ receivedSize then finalizeReceive hash expected written
    else
      match msg with
      | TransferMessage.Chunk t i d =>
        if t = tid ∧ i = chunkIndex then
          recvLoop hash tid fileSize expected (written ++ d)
            (receivedSize + d.length) (chunkIndex + 1) rest
        else recvLoop hash tid fileSize expected written receivedSize chunkIndex rest
      | TransferMessage.Complete t _ =>
        if t = tid then finalizeReceive hash expected written
        else recvLoop hash tid fileSize expected written receivedSize chunkIndex rest
      | TransferMessage.Cancel t =>
        if t = tid then RecvOutcome.cancelled
        else recvLoop hash tid fileSize expected written receivedSize chunkIndex rest
      | _ => recvLoop hash tid fileSize expected written receivedSize chunkIndex rest

/-- Top of `TransferService::handle_receiver` (src/transfer.rs:110-217): the
first message must be a `Request`, whose `file_size` and `file_checksum` drive
the loop; any other first message is ignored. -/
def handleReceiver (hash : List Nat → String) (msgs : List TransferMessage) :
    RecvOutcome :=
  match msgs with
  | TransferMessage.Request tid _fn _fp size cs _mt :: rest =>
      recvLoop hash tid size cs [] 0 0 rest
  | _ => RecvOutcome.noRequest

lemma senderChunks_nil (tid chunkSize idx : Nat) :
    senderChunks tid chunkSize [] idx = [] := by
  rw [senderChunks]
  simp

lemma recvLoop_senderChunks (hash : List Nat → String) (tid chunkSize : Nat)
    (expected : Option String) (hC : 0 < chunkSize) :
    ∀ n (content written : List Nat), content.length = n →
      ∀ idx rest,
        recvLoop hash tid (written.length + content.length) expected written
          written.length idx (senderChunks tid chunkSize content idx ++ rest)
        = finalizeReceive hash expected (written ++ content) := by
  intro n
  induction n using Nat.strong_induction_on with
  | _ n ih =>
    intro content written hlen idx rest
    by_cases hc : content.length = 0
    · have hnil : content = [] := List.length_eq_zero.mp hc
      subst hnil
      rw [senderChunks_nil]
      cases rest with
      | nil => simp [recvLoop]
      | cons m ms => simp [recvLoop]
    · have hmin : ¬ (min chunkSize content.length = 0) := by omega
      rw [senderChunks, dif_neg hmin]
      have hlt : ¬ (written.length + content.length ≤ written.length) := by omega
      simp only [List.cons_append, recvLoop, if_neg hlt, and_self, if_pos, if_true]
      have hdroplen : (content.drop chunkSize).length < n := by
        simp only [List.length_drop]
        omega
      have key := ih (content.drop chunkSize).length hdroplen (content.drop chunkSize)
        (written ++ content.take chunkSize) rfl (idx + 1) rest
      have e1 : (written ++ content.take chunkSize).length + (content.drop chunkSize).length
          = written.length + content.length := by
        simp only [List.length_append, List.length_take, List.length_drop]
        omega
      have e2 : (written ++ content.take chunkSize).length
          = written.length + (content.take chunkSize).length := by
        simp [List.length_append]
      rw [e1, e2] at key
      simp only [List.append_eq]
      rw [key]
      rw [List.append_assoc, List.take_append_drop]

/-- C1: for every file (including the empty one) streamed over one connection
as `Request`, then `Chunk`s in emission order, then `Complete`, the receiver
writes exactly the source bytes, its computed digest equals the sender's
precomputed checksum, and `verified` is `true`. -/
theorem send_receive_roundtrip (hash : List Nat → String) (tid chunkSize : Nat)
    (filename file_path : String) (mime : Option String) (content : List Nat)
    (hC : 0 < chunkSize) :
    handleReceiver hash
      ((sendFile hash tid chunkSize filename file_path mime content).request
        :: (sendFile hash tid chunkSize filename file_path mime content).stream)
      = RecvOutcome.finalized content (hash content) true := by
  have key := recvLoop_senderChunks hash tid chunkSize (some (hash content)) hC
      content.length content [] rfl 0 [TransferMessage.Complete tid (some (hash content))]
  simp only [List.length_nil, Nat.zero_add, List.nil_append] at key
  simp only [handleReceiver, sendFile]
  rw [key]
  simp [finalizeReceive]

theorem send_receive_roundtrip_witness :
    0 < 2 ∧ handleReceiver (fun _ => "h")
      ((sendFile (fun _ => "h") 5 2 "a.bin" "/tmp/a.bin" none [10, 20, 30]).request
        :: (sendFile (fun _ => "h") 5 2 "a.bin" "/tmp/a.bin" none [10, 20, 30]).stream)
      = RecvOutcome.finalized [10, 20, 30] "h" true :=
  ⟨by decide,
    send_receive_roundtrip (fun _ => "h") 5 2 "a.bin" "/tmp/a.bin" none [10, 20, 30]
      (by decide)⟩

/-- Number of chunks: ceiling of `n / chunkSize`, as determined by the sender's
read loop. -/
def numChunks (chunkSize n : Nat) : Nat := (n + chunkSize - 1) / chunkSize

lemma numChunks_zero (C : Nat) (hC : 0 < C) : numChunks C 0 = 0 := by
  unfold numChunks
  apply Nat.div_eq_of_lt
  omega

lemma numChunks_eq_succ_div (C n : Nat) (hC : 0 < C) (hn : 0 < n) :
    numChunks C n = (n - 1) / C + 1 := by
  unfold numChunks
  have h1 : n + C - 1 = (n - 1) + C := by omega
  rw [h1, Nat.add_div_right _ hC]

lemma numChunks_succ (C n : Nat) (hC : 0 < C) (hn : 0 < n) :
    numChunks C n = numChunks C (n - C) + 1 := by
  rw [numChunks_eq_succ_div C n hC hn]
  unfold numChunks
  congr 1
  rcases le_or_lt C n with h | h
  · have h2 : n - C + C - 1 = n - 1 := by omega
    rw [h2]
  · have h2 : n - C = 0 := by omega
    rw [h2]
    rw [Nat.div_eq_of_lt (by omega), Nat.div_eq_of_lt (by omega)]

lemma senderChunks_eq_map (tid C : Nat) (hC : 0 < C) :
    ∀ n (content : List Nat), content.length = n → ∀ idx,
      senderChunks tid C content idx
        = (List.range (numChunks C content.length)).map
            (fun k => TransferMessage.Chunk tid (idx + k) ((content.drop (C * k)).take C)) := by
  intro n
  induction n using Nat.strong_induction_on with
  | _ n ih =>
    intro content hlen idx
    by_cases hc : content.length = 0
    · rw [senderChunks, dif_pos (by omega)]
      rw [hc, numChunks_zero C hC]
      simp
    · rw [senderChunks, dif_neg (by omega)]
      have hdroplen : (content.drop C).length < n := by
        simp only [List.length_drop]
        omega
      rw [ih (content.drop C).length hdroplen (content.drop C) rfl (idx + 1)]
      have hnc : numChunks C content.length = numChunks C (content.length - C) + 1 :=
        numChunks_succ C content.length hC (by omega)
      rw [hnc, List.range_succ_eq_map, List.map_cons, List.map_map]
      simp only [List.length_drop]
      congr 1
      apply List.map_congr_left
      intro k _
      have e1 : idx + 1 + k = idx + (k + 1) := by omega
      have e2 : (content.drop C).drop (C * k) = content.drop (C * (k + 1)) := by
        rw [List.drop_drop]
        congr 1
        ring
      simp only [Function.comp_apply]
      rw [e1, e2]

lemma le_mul_numChunks (C n : Nat) (hC : 0 < C) : n ≤ C * numChunks C n := by
  rcases Nat.eq_zero_or_pos n with hn | hn
  · omega
  · have h1 : C * ((n + C - 1) / C) + (n + C - 1) % C = n + C - 1 :=
      Nat.div_add_mod _ _
    have h2 : (n + C - 1) % C < C := Nat.mod_lt _ hC
    unfold numChunks
    generalize hq : C * ((n + C - 1) / C) = m at h1 ⊢
    generalize hr : (n + C - 1) % C = r at h1 h2
    omega

lemma mul_pred_numChunks_lt (C n : Nat) (hC : 0 < C) (hn : 0 < n) :
    C * (numChunks C n - 1) < n := by
  rw [numChunks_eq_succ_div C n hC hn]
  simp only [Nat.add_sub_cancel]
  have h1 : (n - 1) / C * C ≤ n - 1 := Nat.div_mul_le_self (n - 1) C
  calc C * ((n - 1) / C) = (n - 1) / C * C := Nat.mul_comm _ _
    _ ≤ n - 1 := h1
    _ < n := by omega

/-- C2: for a nonempty file of `N` bytes and chunk size `C > 0`, the sender
emits exactly `ceil (N / C)` chunks indexed consecutively `0, 1, 2, ...`, each
carrying `C` bytes except the last, which carries `N - (ceil (N / C) - 1) * C`
bytes (strictly fewer than `C` when `C` does not divide `N`), followed by one
`Complete` with the precomputed checksum; and the transfer id is returned. -/
theorem sender_chunk_layout (hash : List Nat → String) (tid C : Nat)
    (filename file_path : String) (mime : Option String) (content : List Nat)
    (hC : 0 < C) (hN : 0 < content.length) :
    (sendFile hash tid C filename file_path mime content).stream
      = (List.range (numChunks C content.length)).map
          (fun k => TransferMessage.Chunk tid k ((content.drop (C * k)).take C))
        ++ [TransferMessage.Complete tid (some (hash content))]
    ∧ (∀ k, k + 1 < numChunks C content.length →
        ((content.drop (C * k)).take C).length = C)
    ∧ ((content.drop (C * (numChunks C content.length - 1))).take C).length
        = content.length - (numChunks C content.length - 1) * C
    ∧ (¬ C ∣ content.length →
        content.length - (numChunks C content.length - 1) * C < C)
    ∧ (sendFile hash tid C filename file_path mime content).ret = tid := by
  refine ⟨?_, ?_, ?_, ?_, rfl⟩
  · show senderChunks tid C content 0 ++ _ = _
    rw [senderChunks_eq_map tid C hC content.length content rfl 0]
    simp
  · intro k hk
    have hk1 : k + 1 ≤ numChunks C content.length - 1 := by omega
    have h1 : C * (k + 1) ≤ C * (numChunks C content.length - 1) :=
      Nat.mul_le_mul_left C hk1
    have h2 : C * (numChunks C content.length - 1) < content.length :=
      mul_pred_numChunks_lt C content.length hC hN
    have h3 : C * (k + 1) = C * k + C := Nat.mul_succ C k
    simp only [List.length_take, List.length_drop]
    generalize hg : C * k = a at h3 ⊢
    omega
  · have h1 : content.length ≤ C * numChunks C content.length :=
      le_mul_numChunks C content.length hC
    have hpos : 0 < numChunks C content.length := by
      by_contra hz
      have : numChunks C content.length = 0 := by omega
      rw [this] at h1
      omega
    have h2 : C * numChunks C content.length
        = C * (numChunks C content.length - 1) + C := by
      have : numChunks C content.length = (numChunks C content.length - 1) + 1 := by
        omega
      calc C * numChunks C content.length
          = C * ((numChunks C content.length - 1) + 1) := by rw [← this]
        _ = C * (numChunks C content.length - 1) + C := Nat.mul_succ _ _
    have h3 : (numChunks C content.length - 1) * C
        = C * (numChunks C content.length - 1) := Nat.mul_comm _ _
    simp only [List.length_take, List.length_drop, h3]
    generalize hg : C * (numChunks C content.length - 1) = a at h2 ⊢
    generalize hg2 : C * numChunks C content.length = b at h1 h2
    omega
  · intro hdvd
    have h1 : content.length ≤ C * numChunks C content.length :=
      le_mul_numChunks C content.length hC
    rcases Nat.lt_or_ge content.length (C * numChunks C content.length) with hlt | hge
    · have hpos : 0 < numChunks C content.length := by
        by_contra hz
        have : numChunks C content.length = 0 := by omega
        rw [this] at hlt
        omega
      have h2 : C * numChunks C content.length
          = C * (numChunks C content.length - 1) + C := by
        have he : numChunks C content.length = (numChunks C content.length - 1) + 1 := by
          omega
        calc C * numChunks C content.length
            = C * ((numChunks C content.length - 1) + 1) := by rw [← he]
          _ = C * (numChunks C content.length - 1) + C := Nat.mul_succ _ _
      have h3 : (numChunks C content.length - 1) * C
          = C * (numChunks C content.length - 1) := Nat.mul_comm _ _
      rw [h3]
      generalize hg : C * (numChunks C content.length - 1) = a at h2 ⊢
      generalize hg2 : C * numChunks C content.length = b at h2 hlt
      omega
    · have heq : content.length = C * numChunks C content.length := by omega
      exact absurd ⟨numChunks C content.length, heq⟩ hdvd

theorem sender_chunk_layout_witness :
    0 < 2 ∧ 0 < ([10, 20, 30] : List Nat).length ∧
    ((sendFile (fun _ => "h") 5 2 "a.bin" "/tmp/a.bin" none [10, 20, 30]).stream
      = (List.range (numChunks 2 ([10, 20, 30] : List Nat).length)).map
          (fun k =>
            TransferMessage.Chunk 5 k ((([10, 20, 30] : List Nat).drop (2 * k)).take 2))
        ++ [TransferMessage.Complete 5 (some "h")]
    ∧ (∀ k, k + 1 < numChunks 2 ([10, 20, 30] : List Nat).length →
        ((([10, 20, 30] : List Nat).drop (2 * k)).take 2).length = 2)
    ∧ ((([10, 20, 30] : List Nat).drop
          (2 * (numChunks 2 ([10, 20, 30] : List Nat).length - 1))).take 2).length
        = ([10, 20, 30] : List Nat).length
          - (numChunks 2 ([10, 20, 30] : List Nat).length - 1) * 2
    ∧ (¬ 2 ∣ ([10, 20, 30] : List Nat).length →
        ([10, 20, 30] : List Nat).length
          - (numChunks 2 ([10, 20, 30] : List Nat).length - 1) * 2 < 2)
    ∧ (sendFile (fun _ => "h") 5 2 "a.bin" "/tmp/a.bin" none [10, 20, 30]).ret = 5) :=
  ⟨by decide, by decide,
    sender_chunk_layout (fun _ => "h") 5 2 "a.bin" "/tmp/a.bin" none [10, 20, 30]
      (by decide) (by decide)⟩

def verifiedFlag (hash : List Nat → String) (expected : Option String)
    (w : List Nat) : Bool :=
  match expected with
  | some e => hash w == e
  | none => true

lemma finalizeReceive_shape (hash : List Nat → String) (expected : Option String)
    (written w : List Nat) (c : String) (v : Bool)
    (h : finalizeReceive hash expected written = RecvOutcome.finalized w c v) :
    c = hash w ∧ v = verifiedFlag hash expected w := by
  unfold finalizeReceive at h
  injection h with h1 h2 h3
  subst h1
  subst h2
  subst h3
  exact ⟨rfl, rfl⟩

lemma recvLoop_finalized_shape (hash : List Nat → String) (tid fileSize : Nat)
    (expected : Option String) :
    ∀ (msgs : List TransferMessage) (written : List Nat)
      (receivedSize chunkIndex : Nat) (w : List Nat) (c : String) (v : Bool),
      recvLoop hash tid fileSize expected written receivedSize chunkIndex msgs
        = RecvOutcome.finalized w c v →
      c = hash w ∧ v = verifiedFlag hash expected w := by
  intro msgs
  induction msgs with
  | nil =>
    intro written rs ci w c v h
    rw [recvLoop] at h
    split at h
    · exact finalizeReceive_shape hash expected written w c v h
    · cases h
  | cons m rest ih =>
    intro written rs ci w c v h
    cases m with
    | Chunk t i d =>
      simp only [recvLoop] at h
      split at h
      · exact finalizeReceive_shape hash expected written w c v h
      · split at h
        · exact ih _ _ _ _ _ _ h
        · exact ih _ _ _ _ _ _ h
    | Complete t cs2 =>
      simp only [recvLoop] at h
      split at h
      · exact finalizeReceive_shape hash expected written w c v h
      · split at h
        · exact finalizeReceive_shape hash expected written w c v h
        · exact ih _ _ _ _ _ _ h
    | Cancel t =>
      simp only [recvLoop] at h
      split at h
      · exact finalizeReceive_shape hash expected written w c v h
      · split at h
        · cases h
        · exact ih _ _ _ _ _ _ h
    | Request a b e f g j =>
      simp only [recvLoop] at h
      split at h
      · exact finalizeReceive_shape hash expected written w c v h
      · exact ih _ _ _ _ _ _ h
    | Accept t =>
      simp only [recvLoop] at h
      split at h
      · exact finalizeReceive_shape hash expected written w c v h
      · exact ih _ _ _ _ _ _ h
    | Reject t r =>
      simp only [recvLoop] at h
      split at h
      · exact finalizeReceive_shape hash expected written w c v h
      · exact ih _ _ _ _ _ _ h
    | Error t msg =>
      simp only [recvLoop] at h
      split at h
      · exact finalizeReceive_shape hash expected written w c v h
      · exact ih _ _ _ _ _ _ h
    | Pause t =>
      simp only [recvLoop] at h
      split at h
      · exact finalizeReceive_shape hash expected written w c v h
      · exact ih _ _ _ _ _ _ h
    | Resume t =>
      simp only [recvLoop] at h
      split at h
      · exact finalizeReceive_shape hash expected written w c v h
      · exact ih _ _ _ _ _ _ h

/-- C3: whenever a receive reaches finalization (neither cancelled nor failed),
the `verified` flag is `true` exactly when the calculated checksum equals the
advertised one, and is unconditionally `true` when the `Request` advertised no
checksum. -/
theorem receiver_verified_iff (hash : List Nat → String) (tid fileSize : Nat)
    (expected : Option String) (msgs : List TransferMessage)
    (w : List Nat) (c : String) (v : Bool)
    (h : recvLoop hash tid fileSize expected [] 0 0 msgs
        = RecvOutcome.finalized w c v) :
    (expected = none → v = true)
    ∧ ∀ e, expected = some e → (v = true ↔ c = e) := by
  obtain ⟨hc, hv⟩ :=
    recvLoop_finalized_shape hash tid fileSize expected msgs [] 0 0 w c v h
  constructor
  · intro he
    subst he
    simpa [verifiedFlag] using hv
  · intro e he
    subst he
    simp only [verifiedFlag] at hv
    subst hc
    rw [hv]
    exact beq_iff_eq

theorem receiver_verified_iff_witness :
    (recvLoop (fun _ => "h") 3 0 (some "h") [] 0 0 []
        = RecvOutcome.finalized [] "h" true)
    ∧ (((some "h" : Option String) = none → true = true)
        ∧ ∀ e, (some "h" : Option String) = some e → (true = true ↔ "h" = e)) :=
  ⟨by decide,
    receiver_verified_iff (fun _ => "h") 3 0 (some "h") [] [] "h" true (by decide)⟩

/-- Association-list rendering of `HashMap::get`. -/
def mapGet {α : Type} (l : List (Nat × α)) (k : Nat) : Option α :=
  (l.find? (fun p => p.1 == k)).map (fun p => p.2)

/-- Association-list rendering of `HashMap::insert` (replace if present). -/
def mapInsert {α : Type} (l : List (Nat × α)) (k : Nat) (v : α) : List (Nat × α) :=
  if (l.find? (fun p => p.1 == k)).isSome then
    l.map (fun p => if p.1 == k then (k, v) else p)
  else (k, v) :: l

/-- Association-list rendering of `HashMap::remove` (dropping the entry). -/
def mapErase {α : Type} (l : List (Nat × α)) (k : Nat) : List (Nat × α) :=
  l.filter (fun p => !(p.1 == k))

/-- Transfer record (src/history.rs, `TransferRecord`). Timestamps are `Nat`
seconds; the code stores `chrono` instants and durations via
`num_seconds() as u64`, which for the monotone in-process clock is the
difference of the two instants in whole seconds. -/
structure TransferRecord where
  transfer_id : Nat
  peer_id : Option Nat
  peer_hostname : String
  filename : String
  file_path : String
  file_size : Nat
  direction : String
  status : String
  timestamp : Nat
  start_time : Option Nat
  end_time : Option Nat
  duration_seconds : Option Nat
  speed_bytes_per_sec : Option Nat
  file_checksum : Option String
  verified : Bool
deriving DecidableEq, Repr

/-- `TransferRecord::new` (src/history.rs:28-56). -/
def TransferRecord.new (transfer_id : Nat) (peer_id : Option Nat)
    (peer_hostname filename file_path : String) (file_size : Nat)
    (direction : String) (now : Nat) : TransferRecord :=
  { transfer_id := transfer_id
  , peer_id := peer_id
  , peer_hostname := peer_hostname
  , filename := filename
  , file_path := file_path
  , file_size := file_size
  , direction := direction
  , status := "in_progress"
  , timestamp := now
  , start_time := some now
  , end_time := none
  , duration_seconds := none
  , speed_bytes_per_sec := none
  , file_checksum := none
  , verified := false }

/-- `TransferRecord::complete` (src/history.rs:58-72): set status, end time,
checksum and verified flag; when both instants are present, store the duration
and, only if that duration is strictly positive, store
`file_size / duration_seconds`; at duration zero the speed field is left as it
was. -/
def TransferRecord.complete (r : TransferRecord) (checksum : Option String)
    (verified : Bool) (now : Nat) : TransferRecord :=
  let r1 := { r with status := "completed", end_time := some now,
                     file_checksum := checksum, verified := verified }
  match r1.start_time, r1.end_time with
  | some s, some e =>
    let d := e - s
    let r2 := { r1 with duration_seconds := some d }
    if 0 < d then { r2 with speed_bytes_per_sec := some (r2.file_size / d) }
    else r2
  | _, _ => r1

/-- `TransferRecord::fail` (src/history.rs:74-82). -/
def TransferRecord.fail (r : TransferRecord) (now : Nat) : TransferRecord :=
  let r1 := { r with status := "failed", end_time := some now }
  match r1.start_time, r1.end_time with
  | some s, some e => { r1 with duration_seconds := some (e - s) }
  | _, _ => r1

/-- `TransferRecord::cancel` (src/history.rs:84-92). -/
def TransferRecord.cancel (r : TransferRecord) (now : Nat) : TransferRecord :=
  let r1 := { r with status := "cancelled", end_time := some now }
  match r1.start_time, r1.end_time with
  | some s, some e => { r1 with duration_seconds := some (e - s) }
  | _, _ => r1

/-- `TransferRecord::pause` (src/history.rs:94-96). -/
def TransferRecord.pause (r : TransferRecord) : TransferRecord :=
  { r with status := "paused" }

/-- `TransferRecord::resume` (src/history.rs:98-100). -/
def TransferRecord.resume (r : TransferRecord) : TransferRecord :=
  { r with status := "in_progress" }

/-- Transfer registry (src/history.rs, `TransferHistory`): active map plus
completed sequence with capacity `max_history`. -/
structure TransferHistory where
  transfers : List (Nat × TransferRecord)
  completed_transfers : List TransferRecord
  max_history : Nat
deriving DecidableEq, Repr

/-- `TransferHistory::start_transfer` (src/history.rs:137-140). -/
def TransferHistory.start_transfer (h : TransferHistory)
    (record : TransferRecord) : TransferHistory :=
  { h with transfers := mapInsert h.transfers record.transfer_id record }

/-- Push onto the completed sequence, then drop the oldest entry when the
capacity is exceeded; this is the common tail of `complete_transfer`,
`fail_transfer` and `cancel_transfer` (src/history.rs:151-157, 165-171,
178-183). -/
def pushCompleted (h : TransferHistory) (r : TransferRecord) :
    List TransferRecord :=
  let completed := h.completed_transfers ++ [r]
  if h.max_history < completed.length then completed.drop 1 else completed

/-- `TransferHistory::complete_transfer` (src/history.rs:147-159): remove the
record from the active map if present, apply `TransferRecord::complete`, and
append to the bounded completed sequence; absent ids are a no-op. -/
def TransferHistory.complete_transfer (h : TransferHistory) (tid : Nat)
    (checksum : Option String) (verified : Bool) (now : Nat) : TransferHistory :=
  match mapGet h.transfers tid with
  | none => h
  | some r =>
    { h with transfers := mapErase h.transfers tid
           , completed_transfers := pushCompleted h (r.complete checksum verified now) }

/-- `TransferHistory::fail_transfer` (src/history.rs:161-172). -/
def TransferHistory.fail_transfer (h : TransferHistory) (tid now : Nat) :
    TransferHistory :=
  match mapGet h.transfers tid with
  | none => h
  | some r =>
    { h with transfers := mapErase h.transfers tid
           , completed_transfers := pushCompleted h (r.fail now) }

/-- `TransferHistory::cancel_transfer` (src/history.rs:174-185). -/
def TransferHistory.cancel_transfer (h : TransferHistory) (tid now : Nat) :
    TransferHistory :=
  match mapGet h.transfers tid with
  | none => h
  | some r =>
    { h with transfers := mapErase h.transfers tid
           , completed_transfers := pushCompleted h (r.cancel now) }

/-- `TransferHistory::pause_transfer` (src/history.rs:187-192): mutate the
record in place if present. -/
def TransferHistory.pause_transfer (h : TransferHistory) (tid : Nat) :
    TransferHistory :=
  { h with transfers :=
      h.transfers.map (fun p => if p.1 == tid then (p.1, p.2.pause) else p) }

/-- `TransferHistory::resume_transfer` (src/history.rs:194-199). -/
def TransferHistory.resume_transfer (h : TransferHistory) (tid : Nat) :
    TransferHistory :=
  { h with transfers :=
      h.transfers.map (fun p => if p.1 == tid then (p.1, p.2.resume) else p) }

lemma complete_status (r : TransferRecord) (cs : Option String) (v : Bool)
    (now : Nat) : (r.complete cs v now).status = "completed" := by
  unfold TransferRecord.complete
  cases r.start_time with
  | none => rfl
  | some s =>
    dsimp only
    split
    · rfl
    · rfl

lemma complete_checksum (r : TransferRecord) (cs : Option String) (v : Bool)
    (now : Nat) : (r.complete cs v now).file_checksum = cs := by
  unfold TransferRecord.complete
  cases r.start_time with
  | none => rfl
  | some s =>
    dsimp only
    split
    · rfl
    · rfl

lemma complete_verified (r : TransferRecord) (cs : Option String) (v : Bool)
    (now : Nat) : (r.complete cs v now).verified = v := by
  unfold TransferRecord.complete
  cases r.start_time with
  | none => rfl
  | some s =>
    dsimp only
    split
    · rfl
    · rfl

lemma complete_transfer_id (r : TransferRecord) (cs : Option String) (v : Bool)
    (now : Nat) : (r.complete cs v now).transfer_id = r.transfer_id := by
  unfold TransferRecord.complete
  cases r.start_time with
  | none => rfl
  | some s =>
    dsimp only
    split
    · rfl
    · rfl

lemma fail_status (r : TransferRecord) (now : Nat) :
    (r.fail now).status = "failed" := by
  unfold TransferRecord.fail
  cases r.start_time with
  | none => rfl
  | some s => rfl

lemma fail_transfer_id (r : TransferRecord) (now : Nat) :
    (r.fail now).transfer_id = r.transfer_id := by
  unfold TransferRecord.fail
  cases r.start_time with
  | none => rfl
  | some s => rfl

lemma cancel_transfer_id (r : TransferRecord) (now : Nat) :
    (r.cancel now).transfer_id = r.transfer_id := by
  unfold TransferRecord.cancel
  cases r.start_time with
  | none => rfl
  | some s => rfl

/-- Example in-progress record used for concrete counterexamples. -/
def exRecord : TransferRecord :=
  TransferRecord.new 1 (some 2) "peerB" "a.bin" "/tmp/a.bin" 100 "sent" 7

/-- C5 counterexample: completing a record in the same second as it started
(duration rounds to 0) leaves `speed_bytes_per_sec` unset rather than storing
`file_size / max(duration, 1) = file_size / 1 = 100`. -/
theorem complete_zero_duration_counterexample :
    (exRecord.complete none true 7).duration_seconds = some 0
    ∧ (exRecord.complete none true 7).speed_bytes_per_sec = none
    ∧ ¬ (exRecord.complete none true 7).speed_bytes_per_sec
        = some (exRecord.file_size / max 0 1) := by
  refine ⟨rfl, rfl, ?_⟩
  intro hcontra
  simp [exRecord, TransferRecord.new, TransferRecord.complete] at hcontra

/-- C5 (amended): for a record completed after a strictly positive duration
`d = now - start`, the stored speed is `file_size / d`, which coincides with
`file_size / max(d, 1)`; when the duration rounds to 0 seconds the speed field
is left unchanged (it is not set to `file_size`). -/
theorem complete_speed_amended (r : TransferRecord) (cs : Option String)
    (v : Bool) (now s : Nat) (hs : r.start_time = some s) :
    (0 < now - s →
      (r.complete cs v now).speed_bytes_per_sec
        = some (r.file_size / max (now - s) 1))
    ∧ (now - s = 0 →
      (r.complete cs v now).speed_bytes_per_sec = r.speed_bytes_per_sec) := by
  unfold TransferRecord.complete
  dsimp only
  rw [hs]
  dsimp only
  constructor
  · intro hd
    rw [if_pos hd]
    have hm : max (now - s) 1 = now - s := by omega
    rw [hm]
  · intro hd
    rw [hd]
    rw [if_neg (by omega)]

theorem complete_speed_amended_witness :
    exRecord.start_time = some 7
    ∧ ((0 < 9 - 7 →
        (exRecord.complete none true 9).speed_bytes_per_sec
          = some (exRecord.file_size / max (9 - 7) 1))
      ∧ (9 - 7 = 0 →
        (exRecord.complete none true 9).speed_bytes_per_sec
          = exRecord.speed_bytes_per_sec)) :=
  ⟨rfl, complete_speed_amended exRecord none true 9 7 rfl⟩

/-- WebSocket server-to-client messages (src/protocol.rs, `ServerMessage`).
Only the variants relevant to the file-transfer claims are modelled. -/
inductive ServerMessage where
  | Error (message : String)
  | FileTransferRequest (transfer_id peer_id : Nat) (filename file_path : String)
      (file_size : Nat) (file_checksum mime_type : Option String)
  | FileTransferError (transfer_id : Nat) (peer_id : Option Nat) (message : String)
  | BroadcastTransferStart (transfer_id : Nat) (filename file_path : String)
      (file_size total_peers : Nat) (file_checksum mime_type : Option String)
  | BroadcastTransferProgress (transfer_id completed_peers total_peers : Nat)
  | BroadcastTransferComplete (transfer_id successful_peers failed_peers : Nat)
  | TransferCancelled (transfer_id : Nat)
  | TransferPaused (transfer_id : Nat)
  | TransferResumed (transfer_id : Nat)
deriving DecidableEq, Repr

/-- Completion handler of the task spawned by `SendFile`
(src/websocket.rs:151-171): on success the record is completed with checksum
argument `None` and verified `true` (the comment there defers checksum
verification to the transfer service) and nothing is sent; on failure the
record is failed and one `FileTransferError` is sent to the initiating
client. -/
def onSendFileResult (h : TransferHistory) (tid peer_id now : Nat)
    (result : Except String Unit) : TransferHistory × List ServerMessage :=
  match result with
  | Except.ok _ => (h.complete_transfer tid none true now, [])
  | Except.error e =>
      (h.fail_transfer tid now,
        [ServerMessage.FileTransferError tid (some peer_id) e])

/-- Example registry holding `exRecord` as the single active transfer. -/
def exHistory : TransferHistory :=
  TransferHistory.start_transfer ⟨[], [], 1000⟩ exRecord

/-- C4 counterexample: after a successful sender task the record is marked
completed, but the checksum stored in the record is `None` — the file's
checksum is not stored (src/websocket.rs:155 passes `None`). -/
theorem sendfile_success_checksum_counterexample :
    ((onSendFileResult exHistory 1 2 9 (Except.ok ())).1.completed_transfers.map
        (fun r => (r.status, r.file_checksum)))
      = [("completed", none)] := by
  decide

lemma pushCompleted_getLast (h : TransferHistory) (r : TransferRecord)
    (hmax : 0 < h.max_history) : (pushCompleted h r).getLast? = some r := by
  unfold pushCompleted
  dsimp only
  split
  · rename_i hlen
    match hcc : h.completed_transfers with
    | [] =>
      rw [hcc] at hlen
      simp at hlen
      omega
    | x :: xs =>
      simp only [List.cons_append, List.drop_one, List.tail_cons]
      exact List.getLast?_concat _
  · exact List.getLast?_concat _

/-- C4 (amended): when the spawned sender task succeeds, the Session Layer
marks the record completed with `verified = true` but stores no checksum
(`file_checksum = None`) and emits nothing; when the task fails, the record is
marked failed and exactly one `FileTransferError` is emitted to that client. -/
theorem sendfile_task_completion (h : TransferHistory) (tid pid now : Nat)
    (r : TransferRecord) (e : String)
    (hr : mapGet h.transfers tid = some r) (hmax : 0 < h.max_history) :
    ((onSendFileResult h tid pid now (Except.ok ())).2 = []
      ∧ (onSendFileResult h tid pid now (Except.ok ())).1.completed_transfers.getLast?
          = some (r.complete none true now)
      ∧ (r.complete none true now).status = "completed"
      ∧ (r.complete none true now).file_checksum = none
      ∧ (r.complete none true now).verified = true
      ∧ (onSendFileResult h tid pid now (Except.ok ())).1.transfers
          = mapErase h.transfers tid)
    ∧ ((onSendFileResult h tid pid now (Except.error e)).2
          = [ServerMessage.FileTransferError tid (some pid) e]
      ∧ (onSendFileResult h tid pid now (Except.error e)).1.completed_transfers.getLast?
          = some (r.fail now)
      ∧ (r.fail now).status = "failed"
      ∧ (onSendFileResult h tid pid now (Except.error e)).1.transfers
          = mapErase h.transfers tid) := by
  constructor
  · refine ⟨rfl, ?_, complete_status r none true now, complete_checksum r none true now,
      complete_verified r none true now, ?_⟩
    · show (TransferHistory.complete_transfer h tid none true now).completed_transfers.getLast?
          = some (r.complete none true now)
      unfold TransferHistory.complete_transfer
      rw [hr]
      exact pushCompleted_getLast h _ hmax
    · show (TransferHistory.complete_transfer h tid none true now).transfers
          = mapErase h.transfers tid
      unfold TransferHistory.complete_transfer
      rw [hr]
  · refine ⟨rfl, ?_, fail_status r now, ?_⟩
    · show (TransferHistory.fail_transfer h tid now).completed_transfers.getLast?
          = some (r.fail now)
      unfold TransferHistory.fail_transfer
      rw [hr]
      exact pushCompleted_getLast h _ hmax
    · show (TransferHistory.fail_transfer h tid now).transfers
          = mapErase h.transfers tid
      unfold TransferHistory.fail_transfer
      rw [hr]

theorem sendfile_task_completion_witness :
    mapGet exHistory.transfers 1 = some exRecord
    ∧ 0 < exHistory.max_history
    ∧ (onSendFileResult exHistory 1 2 9 (Except.ok ())).2 = []
    ∧ (onSendFileResult exHistory 1 2 9 (Except.ok ())).1.completed_transfers.getLast?
        = some (exRecord.complete none true 9)
    ∧ (onSendFileResult exHistory 1 2 9 (Except.error "boom")).2
        = [ServerMessage.FileTransferError 1 (some 2) "boom"] :=
  ⟨by decide, by decide,
    (sendfile_task_completion exHistory 1 2 9 exRecord "boom" (by decide) (by decide)).1.1,
    (sendfile_task_completion exHistory 1 2 9 exRecord "boom" (by decide) (by decide)).1.2.1,
    (sendfile_task_completion exHistory 1 2 9 exRecord "boom" (by decide) (by decide)).2.1⟩

/-- `CancelTransfer` dispatch (src/websocket.rs:362-365): mutate the registry,
then acknowledge unconditionally. -/
def handleCancelTransfer (h : TransferHistory) (tid now : Nat) :
    TransferHistory × ServerMessage :=
  (h.cancel_transfer tid now, ServerMessage.TransferCancelled tid)

/-- `PauseTransfer` dispatch (src/websocket.rs:366-369). -/
def handlePauseTransfer (h : TransferHistory) (tid : Nat) :
    TransferHistory × ServerMessage :=
  (h.pause_transfer tid, ServerMessage.TransferPaused tid)

/-- `ResumeTransfer` dispatch (src/websocket.rs:370-373). -/
def handleResumeTransfer (h : TransferHistory) (tid : Nat) :
    TransferHistory × ServerMessage :=
  (h.resume_transfer tid, ServerMessage.TransferResumed tid)

lemma find?_eq_none_of_mapGet_none {α : Type} (l : List (Nat × α)) (k : Nat)
    (habs : mapGet l k = none) : l.find? (fun p => p.1 == k) = none := by
  unfold mapGet at habs
  exact Option.map_eq_none.mp habs

lemma map_inplace_absent (l : List (Nat × TransferRecord)) (tid : Nat)
    (g : TransferRecord → TransferRecord) (habs : mapGet l tid = none) :
    l.map (fun p => if p.1 == tid then (p.1, g p.2) else p) = l := by
  have hfind := find?_eq_none_of_mapGet_none l tid habs
  have hmem := List.find?_eq_none.mp hfind
  have : ∀ p ∈ l, (fun p => if p.1 == tid then (p.1, g p.2) else p) p = id p := by
    intro p hp
    have hne : ¬ (p.1 == tid) = true := hmem p hp
    simp only [id]
    rw [if_neg hne]
  rw [List.map_congr_left this, List.map_id]

/-- C10: a `CancelTransfer`, `PauseTransfer` or `ResumeTransfer` whose id is
not in the active map still gets the corresponding acknowledgement (never an
`Error`), and the registry — active map and completed sequence alike — is
unchanged. -/
theorem control_ack_when_absent (h : TransferHistory) (tid now : Nat)
    (habs : mapGet h.transfers tid = none) :
    handleCancelTransfer h tid now = (h, ServerMessage.TransferCancelled tid)
    ∧ handlePauseTransfer h tid = (h, ServerMessage.TransferPaused tid)
    ∧ handleResumeTransfer h tid = (h, ServerMessage.TransferResumed tid) := by
  refine ⟨?_, ?_, ?_⟩
  · unfold handleCancelTransfer TransferHistory.cancel_transfer
    rw [habs]
  · unfold handlePauseTransfer TransferHistory.pause_transfer
    rw [map_inplace_absent h.transfers tid TransferRecord.pause habs]
  · unfold handleResumeTransfer TransferHistory.resume_transfer
    rw [map_inplace_absent h.transfers tid TransferRecord.resume habs]

theorem control_ack_when_absent_witness :
    mapGet (⟨[], [], 1000⟩ : TransferHistory).transfers 7 = none
    ∧ (handleCancelTransfer ⟨[], [], 1000⟩ 7 3
        = (⟨[], [], 1000⟩, ServerMessage.TransferCancelled 7)
      ∧ handlePauseTransfer ⟨[], [], 1000⟩ 7
        = (⟨[], [], 1000⟩, ServerMessage.TransferPaused 7)
      ∧ handleResumeTransfer ⟨[], [], 1000⟩ 7
        = (⟨[], [], 1000⟩, ServerMessage.TransferResumed 7)) :=
  ⟨by decide, control_ack_when_absent ⟨[], [], 1000⟩ 7 3 (by decide)⟩

/-- Registry operations of src/history.rs:137-199 as reified transitions. -/
inductive HistOp where
  | start (r : TransferRecord)
  | complete (tid : Nat) (checksum : Option String) (verified : Bool) (now : Nat)
  | fail (tid now : Nat)
  | cancel (tid now : Nat)
  | pause (tid : Nat)
  | resume (tid : Nat)
deriving Repr

def applyOp (h : TransferHistory) : HistOp → TransferHistory
  | HistOp.start r => h.start_transfer r
  | HistOp.complete tid cs v now => h.complete_transfer tid cs v now
  | HistOp.fail tid now => h.fail_transfer tid now
  | HistOp.cancel tid now => h.cancel_transfer tid now
  | HistOp.pause tid => h.pause_transfer tid
  | HistOp.resume tid => h.resume_transfer tid

def applyOps (h : TransferHistory) (ops : List HistOp) : TransferHistory :=
  ops.foldl applyOp h

/-- Transfer ids of the `start` transitions of a sequence of operations. -/
def startIds (ops : List HistOp) : List Nat :=
  ops.filterMap (fun op =>
    match op with
    | HistOp.start r => some r.transfer_id
    | _ => none)

/-- All transfer ids across the active map and the completed sequence,
with multiplicity. -/
def allIds (h : TransferHistory) : List Nat :=
  h.transfers.map (fun p => p.1) ++ h.completed_transfers.map (fun r => r.transfer_id)

/-- Well-formedness of the active map: the key of each entry is the record's
own `transfer_id` (guaranteed by `start_transfer`, which inserts under
`record.transfer_id`). -/
def histWF (h : TransferHistory) : Prop :=
  ∀ p ∈ h.transfers, p.2.transfer_id = p.1

lemma mapInsert_not_mem {α : Type} (l : List (Nat × α)) (k : Nat) (v : α)
    (hk : ∀ p ∈ l, ¬ p.1 = k) : mapInsert l k v = (k, v) :: l := by
  unfold mapInsert
  have hfind : l.find? (fun p => p.1 == k) = none := by
    apply List.find?_eq_none.mpr
    intro p hp
    simp only [beq_iff_eq]
    exact hk p hp
  rw [hfind]
  rfl

lemma start_allIds (h : TransferHistory) (r : TransferRecord)
    (hk : r.transfer_id ∉ h.transfers.map (fun p => p.1)) :
    allIds (h.start_transfer r) = r.transfer_id :: allIds h := by
  unfold TransferHistory.start_transfer allIds
  dsimp only
  rw [mapInsert_not_mem h.transfers r.transfer_id r
    (fun p hp heq => hk (List.mem_map.mpr ⟨p, hp, heq⟩))]
  simp

lemma start_wf (h : TransferHistory) (r : TransferRecord)
    (hk : r.transfer_id ∉ h.transfers.map (fun p => p.1))
    (hwf : histWF h) : histWF (h.start_transfer r) := by
  unfold TransferHistory.start_transfer histWF
  dsimp only
  rw [mapInsert_not_mem h.transfers r.transfer_id r
    (fun p hp heq => hk (List.mem_map.mpr ⟨p, hp, heq⟩))]
  intro p hp
  rcases List.mem_cons.mp hp with he | hm
  · subst he
    rfl
  · exact hwf p hm

/-- Common shape of the three terminal transitions of src/history.rs
(`complete_transfer`, `fail_transfer`, `cancel_transfer`): look up and remove
from the active map, transform the record, append to the bounded completed
sequence. -/
def terminalApply (h : TransferHistory) (tid : Nat)
    (f : TransferRecord → TransferRecord) : TransferHistory :=
  match mapGet h.transfers tid with
  | none => h
  | some r =>
    { h with transfers := mapErase h.transfers tid
           , completed_transfers := pushCompleted h (f r) }

lemma complete_eq_terminalApply (h : TransferHistory) (tid : Nat)
    (cs : Option String) (v : Bool) (now : Nat) :
    h.complete_transfer tid cs v now
      = terminalApply h tid (fun r => r.complete cs v now) := rfl

lemma fail_eq_terminalApply (h : TransferHistory) (tid now : Nat) :
    h.fail_transfer tid now = terminalApply h tid (fun r => r.fail now) := rfl

lemma cancel_eq_terminalApply (h : TransferHistory) (tid now : Nat) :
    h.cancel_transfer tid now = terminalApply h tid (fun r => r.cancel now) := rfl

lemma pushCompleted_sublist (h : TransferHistory) (r : TransferRecord) :
    (pushCompleted h r).Sublist (h.completed_transfers ++ [r]) := by
  unfold pushCompleted
  dsimp only
  split
  · exact List.drop_sublist 1 _
  · exact List.Sublist.refl _

lemma terminalApply_inv (h : TransferHistory) (tid : Nat)
    (f : TransferRecord → TransferRecord)
    (hf : ∀ r, (f r).transfer_id = r.transfer_id)
    (hwf : histWF h) (hnd : (allIds h).Nodup) :
    histWF (terminalApply h tid f)
    ∧ (allIds (terminalApply h tid f)).Nodup
    ∧ ∀ x ∈ allIds (terminalApply h tid f), x ∈ allIds h := by
  unfold terminalApply
  cases hm : mapGet h.transfers tid with
  | none => exact ⟨hwf, hnd, fun x hx => hx⟩
  | some r =>
    obtain ⟨p, hpfind, hp2⟩ := Option.map_eq_some'.mp hm
    have hpmem : p ∈ h.transfers := List.mem_of_find?_eq_some hpfind
    have hp1 : p.1 = tid := by
      have := List.find?_some hpfind
      simpa using this
    have htid : r.transfer_id = tid := by
      rw [← hp2, hwf p hpmem, hp1]
    have hkeys : (allIds h).Nodup := hnd
    rw [allIds, List.nodup_append] at hkeys
    obtain ⟨hknd, hcnd, hdisj⟩ := hkeys
    have htidkeys : tid ∈ h.transfers.map (fun q => q.1) :=
      List.mem_map.mpr ⟨p, hpmem, hp1⟩
    have htidcomp : tid ∉ h.completed_transfers.map (fun x => x.transfer_id) :=
      fun hx => hdisj htidkeys hx
    have hcompfull :
        ((h.completed_transfers ++ [f r]).map (fun x => x.transfer_id))
          = h.completed_transfers.map (fun x => x.transfer_id) ++ [tid] := by
      rw [List.map_append]
      simp [hf, htid]
    have hcompsub :
        ((pushCompleted h (f r)).map (fun x => x.transfer_id)).Sublist
          (h.completed_transfers.map (fun x => x.transfer_id) ++ [tid]) := by
      rw [← hcompfull]
      exact (pushCompleted_sublist h (f r)).map _
    have hfullnd :
        (h.completed_transfers.map (fun x => x.transfer_id) ++ [tid]).Nodup := by
      rw [List.nodup_append]
      refine ⟨hcnd, List.nodup_singleton _, ?_⟩
      intro a ha hb
      rw [List.mem_singleton] at hb
      subst hb
      exact htidcomp ha
    have hkeyssub :
        ((mapErase h.transfers tid).map (fun q => q.1)).Sublist
          (h.transfers.map (fun q => q.1)) :=
      (List.filter_sublist _).map _
    have hkeysne : ∀ x ∈ (mapErase h.transfers tid).map (fun q => q.1), ¬ x = tid := by
      intro x hx
      obtain ⟨q, hqmem, hq1⟩ := List.mem_map.mp hx
      unfold mapErase at hqmem
      rw [List.mem_filter] at hqmem
      have := hqmem.2
      simp only [Bool.not_eq_true', beq_eq_false_iff_ne] at this
      rw [← hq1]
      exact this
    refine ⟨?_, ?_, ?_⟩
    · intro q hq
      dsimp only at hq
      unfold mapErase at hq
      rw [List.mem_filter] at hq
      exact hwf q hq.1
    · show ((mapErase h.transfers tid).map (fun q => q.1)
          ++ (pushCompleted h (f r)).map (fun x => x.transfer_id)).Nodup
      rw [List.nodup_append]
      refine ⟨hknd.sublist hkeyssub, hfullnd.sublist hcompsub, ?_⟩
      intro a ha hb
      have hane : ¬ a = tid := hkeysne a ha
      have hakeys : a ∈ h.transfers.map (fun q => q.1) := hkeyssub.subset ha
      have hb2 : a ∈ h.completed_transfers.map (fun x => x.transfer_id) ++ [tid] :=
        hcompsub.subset hb
      rcases List.mem_append.mp hb2 with hbc | hbt
      · exact hdisj hakeys hbc
      · rw [List.mem_singleton] at hbt
        exact hane hbt
    · intro x hx
      show x ∈ allIds h
      rcases List.mem_append.mp hx with hxa | hxc
      · exact List.mem_append.mpr (Or.inl (hkeyssub.subset hxa))
      · have hx2 : x ∈ h.completed_transfers.map (fun q => q.transfer_id) ++ [tid] :=
          hcompsub.subset hxc
        rcases List.mem_append.mp hx2 with hxd | hxt
        · exact List.mem_append.mpr (Or.inr hxd)
        · rw [List.mem_singleton] at hxt
          subst hxt
          exact List.mem_append.mpr (Or.inl htidkeys)

lemma inplace_allIds (h : TransferHistory) (tid : Nat)
    (g : TransferRecord → TransferRecord) :
    allIds { h with transfers := h.transfers.map (fun p => if p.1 == tid then (p.1, g p.2) else p) }
      = allIds h := by
  unfold allIds
  dsimp only
  rw [List.map_map]
  congr 1
  apply List.map_congr_left
  intro p _
  simp only [Function.comp_apply]
  split
  · rfl
  · rfl

lemma inplace_wf (h : TransferHistory) (tid : Nat)
    (g : TransferRecord → TransferRecord)
    (hg : ∀ r, (g r).transfer_id = r.transfer_id)
    (hwf : histWF h) :
    histWF { h with transfers := h.transfers.map (fun p => if p.1 == tid then (p.1, g p.2) else p) } := by
  intro q hq
  dsimp only at hq
  obtain ⟨p, hpmem, hpe⟩ := List.mem_map.mp hq
  by_cases hk : (p.1 == tid) = true
  · rw [if_pos hk] at hpe
    subst hpe
    dsimp only
    rw [hg]
    exact hwf p hpmem
  · rw [if_neg hk] at hpe
    subst hpe
    exact hwf p hpmem

lemma pause_transfer_id (r : TransferRecord) : r.pause.transfer_id = r.transfer_id := rfl

lemma resume_transfer_id (r : TransferRecord) : r.resume.transfer_id = r.transfer_id := rfl

lemma applyOps_inv :
    ∀ (ops : List HistOp) (h : TransferHistory),
      histWF h → (allIds h).Nodup → (startIds ops).Nodup →
      (∀ t ∈ startIds ops, t ∉ allIds h) →
      histWF (applyOps h ops) ∧ (allIds (applyOps h ops)).Nodup := by
  intro ops
  induction ops with
  | nil =>
    intro h hwf hnd _ _
    exact ⟨hwf, hnd⟩
  | cons op rest ih =>
    intro h hwf hnd hops hfresh
    show histWF (applyOps (applyOp h op) rest)
      ∧ (allIds (applyOps (applyOp h op) rest)).Nodup
    cases op with
    | start r =>
      simp only [startIds, List.filterMap_cons] at hops hfresh
      rw [List.nodup_cons] at hops
      have hfr : r.transfer_id ∉ allIds h :=
        hfresh r.transfer_id (List.mem_cons_self _ _)
      have hknotin : r.transfer_id ∉ h.transfers.map (fun p => p.1) := by
        intro hx
        exact hfr (List.mem_append.mpr (Or.inl hx))
      have hall : allIds (h.start_transfer r) = r.transfer_id :: allIds h :=
        start_allIds h r hknotin
      apply ih
      · exact start_wf h r hknotin hwf
      · show (allIds (h.start_transfer r)).Nodup
        rw [hall]
        exact List.nodup_cons.mpr ⟨hfr, hnd⟩
      · exact hops.2
      · intro t ht
        show t ∉ allIds (h.start_transfer r)
        rw [hall]
        intro hx
        rcases List.mem_cons.mp hx with he | hm
        · subst he
          exact hops.1 ht
        · exact hfresh t (List.mem_cons_of_mem _ ht) hm
    | complete tid cs v now =>
      obtain ⟨w1, w2, w3⟩ := terminalApply_inv h tid (fun r => r.complete cs v now)
        (fun r => complete_transfer_id r cs v now) hwf hnd
      simp only [startIds, List.filterMap_cons] at hops hfresh
      rw [show applyOp h (HistOp.complete tid cs v now)
          = terminalApply h tid (fun r => r.complete cs v now) from rfl]
      apply ih _ w1 w2 hops
      intro t ht hx
      exact hfresh t ht (w3 t hx)
    | fail tid now =>
      obtain ⟨w1, w2, w3⟩ := terminalApply_inv h tid (fun r => r.fail now)
        (fun r => fail_transfer_id r now) hwf hnd
      simp only [startIds, List.filterMap_cons] at hops hfresh
      rw [show applyOp h (HistOp.fail tid now)
          = terminalApply h tid (fun r => r.fail now) from rfl]
      apply ih _ w1 w2 hops
      intro t ht hx
      exact hfresh t ht (w3 t hx)
    | cancel tid now =>
      obtain ⟨w1, w2, w3⟩ := terminalApply_inv h tid (fun r => r.cancel now)
        (fun r => cancel_transfer_id r now) hwf hnd
      simp only [startIds, List.filterMap_cons] at hops hfresh
      rw [show applyOp h (HistOp.cancel tid now)
          = terminalApply h tid (fun r => r.cancel now) from rfl]
      apply ih _ w1 w2 hops
      intro t ht hx
      exact hfresh t ht (w3 t hx)
    | pause tid =>
      simp only [startIds, List.filterMap_cons] at hops hfresh
      have hall : allIds (h.pause_transfer tid) = allIds h :=
        inplace_allIds h tid TransferRecord.pause
      apply ih
      · exact inplace_wf h tid TransferRecord.pause
          (fun r => pause_transfer_id r) hwf
      · show (allIds (h.pause_transfer tid)).Nodup
        rw [hall]
        exact hnd
      · exact hops
      · intro t ht
        show t ∉ allIds (h.pause_transfer tid)
        rw [hall]
        exact hfresh t ht
    | resume tid =>
      simp only [startIds, List.filterMap_cons] at hops hfresh
      have hall : allIds (h.resume_transfer tid) = allIds h :=
        inplace_allIds h tid TransferRecord.resume
      apply ih
      · exact inplace_wf h tid TransferRecord.resume
          (fun r => resume_transfer_id r) hwf
      · show (allIds (h.resume_transfer tid)).Nodup
        rw [hall]
        exact hnd
      · exact hops
      · intro t ht
        show t ∉ allIds (h.resume_transfer tid)
        rw [hall]
        exact hfresh t ht

/-- C8: starting from an empty registry, any sequence of operations whose
`start` transitions carry pairwise distinct transfer ids leaves every transfer
id occurring at most once across the active map and the completed sequence;
moreover a terminal transition on an id absent from the active map (for
example one already moved to completed) is a no-op and appends nothing. -/
theorem registry_id_unique (ops : List HistOp) (maxH : Nat)
    (hnd : (startIds ops).Nodup) :
    (allIds (applyOps ⟨[], [], maxH⟩ ops)).Nodup
    ∧ (∀ (h : TransferHistory) (tid : Nat) (cs : Option String) (v : Bool)
        (now : Nat), mapGet h.transfers tid = none →
        h.complete_transfer tid cs v now = h
        ∧ h.fail_transfer tid now = h
        ∧ h.cancel_transfer tid now = h) := by
  constructor
  · exact (applyOps_inv ops ⟨[], [], maxH⟩ (fun p hp => absurd hp (List.not_mem_nil p))
      (by simp [allIds]) hnd (fun t _ hx => by simp [allIds] at hx)).2
  · intro h tid cs v now habs
    refine ⟨?_, ?_, ?_⟩
    · unfold TransferHistory.complete_transfer
      rw [habs]
    · unfold TransferHistory.fail_transfer
      rw [habs]
    · unfold TransferHistory.cancel_transfer
      rw [habs]

theorem registry_id_unique_witness :
    (startIds [HistOp.start exRecord, HistOp.complete 1 none true 9,
        HistOp.cancel 1 10,
        HistOp.start (TransferRecord.new 2 none "peerC" "b" "/b" 5 "sent" 11)]).Nodup
    ∧ (allIds (applyOps ⟨[], [], 1000⟩
        [HistOp.start exRecord, HistOp.complete 1 none true 9,
         HistOp.cancel 1 10,
         HistOp.start (TransferRecord.new 2 none "peerC" "b" "/b" 5 "sent" 11)])).Nodup :=
  ⟨by decide,
    (registry_id_unique
      [HistOp.start exRecord, HistOp.complete 1 none true 9,
       HistOp.cancel 1 10,
       HistOp.start (TransferRecord.new 2 none "peerC" "b" "/b" 5 "sent" 11)]
      1000 (by decide)).1⟩

/-- Peer record (src/peer.rs, `Peer`): UUID and socket address as `Nat`,
`last_seen` as `Nat` seconds. -/
structure Peer where
  id : Nat
  address : Nat
  hostname : String
  last_seen : Nat
deriving DecidableEq, Repr

/-- Peer table (src/peer.rs, `PeerManager`). -/
structure PeerManager where
  peers : List (Nat × Peer)
  local_id : Nat
  local_hostname : String
deriving DecidableEq, Repr

/-- `PeerManager::add_or_update_peer` (src/peer.rs:59-63): insert keyed by the
peer's id, unless that id equals the local id. -/
def PeerManager.add_or_update_peer (pm : PeerManager) (peer : Peer) : PeerManager :=
  if peer.id ≠ pm.local_id then
    { pm with peers := mapInsert pm.peers peer.id peer }
  else pm

/-- `PeerManager::remove_peer` (src/peer.rs:65-67). -/
def PeerManager.remove_peer (pm : PeerManager) (peer_id : Nat) : PeerManager :=
  { pm with peers := mapErase pm.peers peer_id }

/-- `PeerManager::get_peer` (src/peer.rs:69-71). -/
def PeerManager.get_peer (pm : PeerManager) (peer_id : Nat) : Option Peer :=
  mapGet pm.peers peer_id

/-- `PeerManager::list_peers` (src/peer.rs:73-75). -/
def PeerManager.list_peers (pm : PeerManager) : List Peer :=
  pm.peers.map (fun p => p.2)

/-- `PeerManager::cleanup_stale_peers` (src/peer.rs:77-88): retain a peer iff
`now.duration_since(last_seen)` succeeds (`last_seen ≤ now`) and the elapsed
time is below the timeout. -/
def PeerManager.cleanup_stale_peers (pm : PeerManager) (now timeout_secs : Nat) :
    PeerManager :=
  { pm with peers := pm.peers.filter (fun p => decide (p.2.last_seen ≤ now ∧ now - p.2.last_seen < timeout_secs)) }

/-- Discovery datagram (src/discovery.rs, `DiscoveryMessage`). -/
structure DiscoveryMessage where
  peer_id : Nat
  address : Nat
  hostname : String
deriving DecidableEq, Repr

/-- Peer info notified over the WebSocket (src/protocol.rs, `PeerInfo`). -/
structure PeerInfo where
  id : Nat
  address : Nat
  hostname : String
deriving DecidableEq, Repr

/-- Modelled from the spec: `Peer::from_discovery` is invoked by the discovery
listen loop (src/discovery.rs:127) but its definition is not among the
provided sources (src/peer.rs only has `Peer::new`). Per spec section 3 and
4.2, a peer record is created from the advertisement with that datagram's
peer id, transfer address and hostname, and `last_seen` set to the reception
time. -/
def Peer.from_discovery (id addr : Nat) (hostname : String) (now : Nat) : Peer :=
  { id := id, address := addr, hostname := hostname, last_seen := now }

/-- One iteration of the discovery listen loop on a parsed datagram
(src/discovery.rs:123-141): a datagram whose `peer_id` equals the local id is
dropped; otherwise the peer is upserted, and a `PeerDiscovered` notification
is produced only if the id was previously absent. -/
def ingestDiscovery (pm : PeerManager) (msg : DiscoveryMessage) (now : Nat) :
    PeerManager × Option PeerInfo :=
  if msg.peer_id ≠ pm.local_id then
    let wasNew := !(pm.get_peer msg.peer_id).isSome
    let peer := Peer.from_discovery msg.peer_id msg.address msg.hostname now
    let pm2 := pm.add_or_update_peer peer
    (pm2, if wasNew then some ⟨msg.peer_id, msg.address, msg.hostname⟩ else none)
  else (pm, none)

/-- The local id is never a key of the peer table. -/
def noLocalPeer (pm : PeerManager) : Prop :=
  ∀ p ∈ pm.peers, ¬ p.1 = pm.local_id

lemma mem_mapInsert {α : Type} (l : List (Nat × α)) (k : Nat) (v : α)
    (q : Nat × α) (hq : q ∈ mapInsert l k v) : q.1 = k ∨ q ∈ l := by
  unfold mapInsert at hq
  split at hq
  · obtain ⟨p, hp, he⟩ := List.mem_map.mp hq
    by_cases hk : (p.1 == k) = true
    · rw [if_pos hk] at he
      left
      rw [← he]
    · rw [if_neg hk] at he
      right
      rw [← he]
      exact hp
  · rcases List.mem_cons.mp hq with he | hm
    · left
      rw [he]
    · right
      exact hm

lemma add_or_update_preserves (pm : PeerManager) (peer : Peer)
    (hinv : noLocalPeer pm) : noLocalPeer (pm.add_or_update_peer peer) := by
  unfold PeerManager.add_or_update_peer
  split
  · rename_i hne
    intro p hp
    dsimp only at hp
    rcases mem_mapInsert pm.peers peer.id peer p hp with hk | hm
    · rw [hk]
      exact hne
    · exact hinv p hm
  · exact hinv

/-- C9: the local peer id is never present in the Peer Table — upsert of a
record whose id equals the local id is a no-op; ingesting a discovery
datagram whose `peer_id` equals the local id leaves the table unchanged and
emits no `PeerDiscovered`; and the invariant is preserved by upsert, removal,
stale-peer cleanup and datagram ingestion (none of which alters the local
id). -/
theorem local_never_in_peer_table (pm : PeerManager) (peer : Peer)
    (msg : DiscoveryMessage) (now timeout_secs pid : Nat) :
    (peer.id = pm.local_id → pm.add_or_update_peer peer = pm)
    ∧ (msg.peer_id = pm.local_id → ingestDiscovery pm msg now = (pm, none))
    ∧ (noLocalPeer pm →
        noLocalPeer (pm.add_or_update_peer peer)
        ∧ noLocalPeer (pm.remove_peer pid)
        ∧ noLocalPeer (pm.cleanup_stale_peers now timeout_secs)
        ∧ noLocalPeer (ingestDiscovery pm msg now).1)
    ∧ (pm.add_or_update_peer peer).local_id = pm.local_id
    ∧ (pm.remove_peer pid).local_id = pm.local_id
    ∧ (pm.cleanup_stale_peers now timeout_secs).local_id = pm.local_id
    ∧ ((ingestDiscovery pm msg now).1).local_id = pm.local_id := by
  refine ⟨?_, ?_, ?_, ?_, rfl, rfl, ?_⟩
  · intro he
    unfold PeerManager.add_or_update_peer
    rw [if_neg (by simp [he])]
  · intro he
    unfold ingestDiscovery
    rw [if_neg (by simp [he])]
  · intro hinv
    refine ⟨add_or_update_preserves pm peer hinv, ?_, ?_, ?_⟩
    · intro p hp
      unfold PeerManager.remove_peer mapErase at hp
      dsimp only at hp
      rw [List.mem_filter] at hp
      exact hinv p hp.1
    · intro p hp
      unfold PeerManager.cleanup_stale_peers at hp
      dsimp only at hp
      rw [List.mem_filter] at hp
      exact hinv p hp.1
    · unfold ingestDiscovery
      split
      · dsimp only
        exact add_or_update_preserves pm _ hinv
      · exact hinv
  · unfold PeerManager.add_or_update_peer
    split
    · rfl
    · rfl
  · unfold ingestDiscovery
    split
    · dsimp only
      unfold PeerManager.add_or_update_peer
      split
      · rfl
      · rfl
    · rfl

theorem local_never_in_peer_table_witness :
    ((3 : Nat) = 3 →
      PeerManager.add_or_update_peer ⟨[], 3, "local"⟩ ⟨3, 9, "x", 0⟩ = ⟨[], 3, "local"⟩)
    ∧ ((3 : Nat) = 3 →
      ingestDiscovery ⟨[], 3, "local"⟩ ⟨3, 9, "x"⟩ 5 = (⟨[], 3, "local"⟩, none))
    ∧ (noLocalPeer ⟨[], 3, "local"⟩ →
        noLocalPeer (PeerManager.add_or_update_peer ⟨[], 3, "local"⟩ ⟨3, 9, "x", 0⟩)
        ∧ noLocalPeer (PeerManager.remove_peer ⟨[], 3, "local"⟩ 4)
        ∧ noLocalPeer (PeerManager.cleanup_stale_peers ⟨[], 3, "local"⟩ 5 30)
        ∧ noLocalPeer (ingestDiscovery ⟨[], 3, "local"⟩ ⟨3, 9, "x"⟩ 5).1)
    ∧ (PeerManager.add_or_update_peer ⟨[], 3, "local"⟩ ⟨3, 9, "x", 0⟩).local_id = 3
    ∧ (PeerManager.remove_peer ⟨[], 3, "local"⟩ 4).local_id = 3
    ∧ (PeerManager.cleanup_stale_peers ⟨[], 3, "local"⟩ 5 30).local_id = 3
    ∧ ((ingestDiscovery ⟨[], 3, "local"⟩ ⟨3, 9, "x"⟩ 5).1).local_id = 3 :=
  local_never_in_peer_table ⟨[], 3, "local"⟩ ⟨3, 9, "x", 0⟩ ⟨3, 9, "x"⟩ 5 30 4

/-- Filesystem view: paths of existing regular files mapped to their bytes
(`file_path.exists() && file_path.is_file()` succeeds exactly on these). -/
def FileSystem : Type := List (String × List Nat)

def fsLookup (fs : FileSystem) (path : String) : Option (List Nat) :=
  (fs.find? (fun p => p.1 == path)).map (fun p => p.2)

/-- Last path component with fallback, modelling
`file_path.file_name().and_then(to_str).unwrap_or("unknown")`. -/
def basename (path : String) : String :=
  (path.splitOn "/").getLastD "unknown"

/-- Result of dispatching one `SendFile` command: the synchronous reply, the
registry afterwards, and whether a background sender task was spawned. -/
structure SendFileOutcome where
  reply : ServerMessage
  history : TransferHistory
  spawned : Bool
deriving DecidableEq, Repr

/-- `SendFile` dispatch (src/websocket.rs:121-192): look up the peer; validate
that the path exists and is a regular file; on success create an in-progress
`sent` record, start it in the registry, spawn the sender task and reply with
a `FileTransferRequest` echo (checksum `None`, to be calculated during
transfer); on a missing or non-regular file reply
`Error("File not found or is not a file")`; on an unknown peer reply
`Error("Peer not found")` — in both error cases without touching the registry
or spawning. -/
def handleSendFile (mimeOf : String → Option String) (pm : PeerManager)
    (h : TransferHistory) (fs : FileSystem) (peer_id : Nat) (path : String)
    (freshTid now : Nat) : SendFileOutcome :=
  match pm.get_peer peer_id with
  | some peer =>
    match fsLookup fs path with
    | some content =>
      let filename := basename path
      let record := TransferRecord.new freshTid (some peer_id) peer.hostname
        filename path content.length "sent" now
      { reply := ServerMessage.FileTransferRequest freshTid peer_id filename
          path content.length none (mimeOf path)
      , history := h.start_transfer record
      , spawned := true }
    | none =>
      { reply := ServerMessage.Error "File not found or is not a file"
      , history := h
      , spawned := false }
  | none =>
    { reply := ServerMessage.Error "Peer not found"
    , history := h
    , spawned := false }

/-- C6: a `SendFile` naming a known peer and a path that does not denote a
regular file yields exactly one synchronous `Error` whose message contains
"File not found", the registry is unchanged (no record created) and no
background task is spawned. -/
theorem sendfile_missing_file (mimeOf : String → Option String)
    (pm : PeerManager) (h : TransferHistory) (fs : FileSystem)
    (peer_id : Nat) (path : String) (freshTid now : Nat) (p : Peer)
    (hp : pm.get_peer peer_id = some p)
    (hf : fsLookup fs path = none) :
    (handleSendFile mimeOf pm h fs peer_id path freshTid now).history = h
    ∧ (handleSendFile mimeOf pm h fs peer_id path freshTid now).spawned = false
    ∧ ∃ rest, (handleSendFile mimeOf pm h fs peer_id path freshTid now).reply
        = ServerMessage.Error ("File not found" ++ rest) := by
  unfold handleSendFile
  rw [hp, hf]
  refine ⟨rfl, rfl, " or is not a file", ?_⟩
  show ServerMessage.Error "File not found or is not a file"
      = ServerMessage.Error ("File not found" ++ " or is not a file")
  rfl

theorem sendfile_missing_file_witness :
    PeerManager.get_peer ⟨[(4, ⟨4, 9, "peerB", 0⟩)], 3, "local"⟩ 4
      = some ⟨4, 9, "peerB", 0⟩
    ∧ fsLookup ([] : FileSystem) "/does/not/exist" = none
    ∧ ((handleSendFile (fun _ => none) ⟨[(4, ⟨4, 9, "peerB", 0⟩)], 3, "local"⟩
          ⟨[], [], 1000⟩ ([] : FileSystem) 4 "/does/not/exist" 1 5).history
        = ⟨[], [], 1000⟩
      ∧ (handleSendFile (fun _ => none) ⟨[(4, ⟨4, 9, "peerB", 0⟩)], 3, "local"⟩
          ⟨[], [], 1000⟩ ([] : FileSystem) 4 "/does/not/exist" 1 5).spawned = false
      ∧ ∃ rest, (handleSendFile (fun _ => none) ⟨[(4, ⟨4, 9, "peerB", 0⟩)], 3, "local"⟩
          ⟨[], [], 1000⟩ ([] : FileSystem) 4 "/does/not/exist" 1 5).reply
          = ServerMessage.Error ("File not found" ++ rest)) :=
  ⟨by decide, by decide,
    sendfile_missing_file (fun _ => none) ⟨[(4, ⟨4, 9, "peerB", 0⟩)], 3, "local"⟩
      ⟨[], [], 1000⟩ ([] : FileSystem) 4 "/does/not/exist" 1 5 ⟨4, 9, "peerB", 0⟩
      (by decide) (by decide)⟩

/-- Body of the spawned broadcast task (src/websocket.rs:241-294): iterate the
peer snapshot sequentially; for each peer run the sender (its outcome is
`none` on success and `some errorMessage` on failure), increment `completed`,
on failure increment `failed` and emit a `FileTransferError`, on success
increment `successful`; after every peer emit a `BroadcastTransferProgress`;
when the iteration ends emit one `BroadcastTransferComplete`. -/
def broadcastBody (bid total : Nat) :
    List (Nat × Option String) → Nat → Nat → Nat → List ServerMessage
  | [], successful, failed, _ =>
      [ServerMessage.BroadcastTransferComplete bid successful failed]
  | (pid, res) :: rest, successful, failed, completed =>
      match res with
      | none =>
          ServerMessage.BroadcastTransferProgress bid (completed + 1) total ::
            broadcastBody bid total rest (successful + 1) failed (completed + 1)
      | some e =>
          ServerMessage.FileTransferError bid (some pid) e ::
            ServerMessage.BroadcastTransferProgress bid (completed + 1) total ::
            broadcastBody bid total rest successful (failed + 1) (completed + 1)

/-- All messages sent to the initiating client by a `BroadcastFile` over a
peer snapshot with the given per-peer sender outcomes: the synchronous
`BroadcastTransferStart` with `total_peers` equal to the snapshot size
(src/websocket.rs:224-235), then the spawned task's events. -/
def broadcastEvents (bid : Nat) (filename file_path : String) (file_size : Nat)
    (file_checksum mime_type : Option String)
    (peersResults : List (Nat × Option String)) : List ServerMessage :=
  ServerMessage.BroadcastTransferStart bid filename file_path file_size
      peersResults.length file_checksum mime_type
    :: broadcastBody bid peersResults.length peersResults 0 0 0

def isBroadcastProgress : ServerMessage → Bool
  | ServerMessage.BroadcastTransferProgress _ _ _ => true
  | _ => false

def isFileTransferError : ServerMessage → Bool
  | ServerMessage.FileTransferError _ _ _ => true
  | _ => false

def isBroadcastComplete : ServerMessage → Bool
  | ServerMessage.BroadcastTransferComplete _ _ _ => true
  | _ => false

/-- Number of successful peers in a snapshot with outcomes. -/
def countSucc (peers : List (Nat × Option String)) : Nat :=
  (peers.filter (fun p => p.2.isNone)).length

/-- Number of failed peers in a snapshot with outcomes. -/
def countFail (peers : List (Nat × Option String)) : Nat :=
  (peers.filter (fun p => p.2.isSome)).length

lemma countSucc_cons_none (pid : Nat) (rest : List (Nat × Option String)) :
    countSucc ((pid, none) :: rest) = countSucc rest + 1 := by
  simp [countSucc, List.filter_cons]

lemma countFail_cons_none (pid : Nat) (rest : List (Nat × Option String)) :
    countFail ((pid, none) :: rest) = countFail rest := by
  simp [countFail, List.filter_cons]

lemma countSucc_cons_some (pid : Nat) (e : String)
    (rest : List (Nat × Option String)) :
    countSucc ((pid, some e) :: rest) = countSucc rest := by
  simp [countSucc, List.filter_cons]

lemma countFail_cons_some (pid : Nat) (e : String)
    (rest : List (Nat × Option String)) :
    countFail ((pid, some e) :: rest) = countFail rest + 1 := by
  simp [countFail, List.filter_cons]

lemma countSucc_add_countFail :
    ∀ peers : List (Nat × Option String),
      countSucc peers + countFail peers = peers.length := by
  intro peers
  induction peers with
  | nil => rfl
  | cons p rest ih =>
    obtain ⟨pid, res⟩ := p
    cases res with
    | none =>
      rw [countSucc_cons_none, countFail_cons_none, List.length_cons]
      omega
    | some e =>
      rw [countSucc_cons_some, countFail_cons_some, List.length_cons]
      omega

lemma broadcastBody_filter_progress (bid total : Nat) :
    ∀ (peers : List (Nat × Option String)) (s f c : Nat),
      (broadcastBody bid total peers s f c).filter isBroadcastProgress
        = (List.range peers.length).map
            (fun i => ServerMessage.BroadcastTransferProgress bid (c + i + 1) total) := by
  intro peers
  induction peers with
  | nil =>
    intro s f c
    simp [broadcastBody, isBroadcastProgress]
  | cons p rest ih =>
    intro s f c
    obtain ⟨pid, res⟩ := p
    cases res with
    | none =>
      rw [show broadcastBody bid total ((pid, none) :: rest) s f c
          = ServerMessage.BroadcastTransferProgress bid (c + 1) total ::
              broadcastBody bid total rest (s + 1) f (c + 1) from rfl]
      rw [List.filter_cons_of_pos rfl]
      rw [ih (s + 1) f (c + 1), List.length_cons, List.range_succ_eq_map,
        List.map_cons, List.map_map]
      congr 1
      apply List.map_congr_left
      intro i _
      simp only [Function.comp_apply]
      have e1 : c + 1 + i + 1 = c + (i + 1) + 1 := by omega
      rw [e1]
    | some e =>
      rw [show broadcastBody bid total ((pid, some e) :: rest) s f c
          = ServerMessage.FileTransferError bid (some pid) e ::
              ServerMessage.BroadcastTransferProgress bid (c + 1) total ::
              broadcastBody bid total rest s (f + 1) (c + 1) from rfl]
      rw [List.filter_cons_of_neg Bool.false_ne_true]
      rw [List.filter_cons_of_pos rfl]
      rw [ih s (f + 1) (c + 1), List.length_cons, List.range_succ_eq_map,
        List.map_cons, List.map_map]
      congr 1
      apply List.map_congr_left
      intro i _
      simp only [Function.comp_apply]
      have e1 : c + 1 + i + 1 = c + (i + 1) + 1 := by omega
      rw [e1]

lemma broadcastBody_filter_errors (bid total : Nat) :
    ∀ (peers : List (Nat × Option String)) (s f c : Nat),
      (broadcastBody bid total peers s f c).filter isFileTransferError
        = peers.filterMap
            (fun p => p.2.map (fun e => ServerMessage.FileTransferError bid (some p.1) e)) := by
  intro peers
  induction peers with
  | nil =>
    intro s f c
    simp [broadcastBody, isFileTransferError]
  | cons p rest ih =>
    intro s f c
    obtain ⟨pid, res⟩ := p
    cases res with
    | none =>
      rw [show broadcastBody bid total ((pid, none) :: rest) s f c
          = ServerMessage.BroadcastTransferProgress bid (c + 1) total ::
              broadcastBody bid total rest (s + 1) f (c + 1) from rfl]
      rw [List.filter_cons_of_neg Bool.false_ne_true]
      rw [ih (s + 1) f (c + 1)]
      rw [List.filterMap_cons]
      rfl
    | some e =>
      rw [show broadcastBody bid total ((pid, some e) :: rest) s f c
          = ServerMessage.FileTransferError bid (some pid) e ::
              ServerMessage.BroadcastTransferProgress bid (c + 1) total ::
              broadcastBody bid total rest s (f + 1) (c + 1) from rfl]
      rw [List.filter_cons_of_pos rfl]
      rw [List.filter_cons_of_neg Bool.false_ne_true]
      rw [ih s (f + 1) (c + 1)]
      rw [List.filterMap_cons]
      rfl

lemma broadcastBody_suffix_complete (bid total : Nat) :
    ∀ (peers : List (Nat × Option String)) (s f c : Nat), ∃ pre,
      broadcastBody bid total peers s f c
        = pre ++ [ServerMessage.BroadcastTransferComplete bid
            (s + countSucc peers) (f + countFail peers)]
      ∧ pre.filter isBroadcastComplete = [] := by
  intro peers
  induction peers with
  | nil =>
    intro s f c
    refine ⟨[], ?_, rfl⟩
    simp [broadcastBody, countSucc, countFail]
  | cons p rest ih =>
    intro s f c
    obtain ⟨pid, res⟩ := p
    cases res with
    | none =>
      obtain ⟨pre, hpre, hfil⟩ := ih (s + 1) f (c + 1)
      refine ⟨ServerMessage.BroadcastTransferProgress bid (c + 1) total :: pre, ?_, ?_⟩
      · rw [show broadcastBody bid total ((pid, none) :: rest) s f c
            = ServerMessage.BroadcastTransferProgress bid (c + 1) total ::
                broadcastBody bid total rest (s + 1) f (c + 1) from rfl]
        rw [List.cons_append]
        congr 1
        rw [hpre, countSucc_cons_none, countFail_cons_none]
        have e1 : s + (countSucc rest + 1) = s + 1 + countSucc rest := by omega
        rw [e1]
      · rw [List.filter_cons_of_neg Bool.false_ne_true]
        exact hfil
    | some e =>
      obtain ⟨pre, hpre, hfil⟩ := ih s (f + 1) (c + 1)
      refine ⟨ServerMessage.FileTransferError bid (some pid) e ::
          ServerMessage.BroadcastTransferProgress bid (c + 1) total :: pre, ?_, ?_⟩
      · rw [show broadcastBody bid total ((pid, some e) :: rest) s f c
            = ServerMessage.FileTransferError bid (some pid) e ::
                ServerMessage.BroadcastTransferProgress bid (c + 1) total ::
                broadcastBody bid total rest s (f + 1) (c + 1) from rfl]
        rw [List.cons_append, List.cons_append]
        congr 2
        rw [hpre, countSucc_cons_some, countFail_cons_some]
        have e1 : f + (countFail rest + 1) = f + 1 + countFail rest := by omega
        rw [e1]
      · rw [List.filter_cons_of_neg Bool.false_ne_true]
        rw [List.filter_cons_of_neg Bool.false_ne_true]
        exact hfil

/-- C7: a broadcast over a non-empty snapshot of `n` peers sends the
initiating client `BroadcastTransferStart` with `total_peers = n` first, then
exactly `n` `BroadcastTransferProgress` events whose `completed_peers` run
`1, 2, ..., n` in order (one per peer regardless of outcome), one
`FileTransferError` per failed peer, and finally a single
`BroadcastTransferComplete` whose `successful_peers + failed_peers = n`. -/
theorem broadcast_events_shape (bid : Nat) (fn fp : String) (sz : Nat)
    (cs mt : Option String) (peers : List (Nat × Option String))
    (hne : 0 < peers.length) :
    (broadcastEvents bid fn fp sz cs mt peers).head?
        = some (ServerMessage.BroadcastTransferStart bid fn fp sz peers.length cs mt)
    ∧ (broadcastEvents bid fn fp sz cs mt peers).tail.filter isBroadcastProgress
        = (List.range peers.length).map
            (fun i => ServerMessage.BroadcastTransferProgress bid (i + 1) peers.length)
    ∧ (broadcastEvents bid fn fp sz cs mt peers).tail.filter isFileTransferError
        = peers.filterMap
            (fun p => p.2.map (fun e => ServerMessage.FileTransferError bid (some p.1) e))
    ∧ (∃ pre, (broadcastEvents bid fn fp sz cs mt peers).tail
          = pre ++ [ServerMessage.BroadcastTransferComplete bid
              (countSucc peers) (countFail peers)]
        ∧ pre.filter isBroadcastComplete = [])
    ∧ countSucc peers + countFail peers = peers.length := by
  refine ⟨rfl, ?_, ?_, ?_, countSucc_add_countFail peers⟩
  · show (broadcastBody bid peers.length peers 0 0 0).filter isBroadcastProgress = _
    rw [broadcastBody_filter_progress bid peers.length peers 0 0 0]
    apply List.map_congr_left
    intro i _
    norm_num
  · exact broadcastBody_filter_errors bid peers.length peers 0 0 0
  · obtain ⟨pre, h1, h2⟩ := broadcastBody_suffix_complete bid peers.length peers 0 0 0
    refine ⟨pre, ?_, h2⟩
    show broadcastBody bid peers.length peers 0 0 0 = _
    rw [h1]
    norm_num

theorem broadcast_events_shape_witness :
    0 < ([(1, none), (2, some "boom")] : List (Nat × Option String)).length
    ∧ ((broadcastEvents 9 "a.bin" "/tmp/a.bin" 3 none none
          [(1, none), (2, some "boom")]).head?
        = some (ServerMessage.BroadcastTransferStart 9 "a.bin" "/tmp/a.bin" 3
            ([(1, none), (2, some "boom")] : List (Nat × Option String)).length none none)
      ∧ (broadcastEvents 9 "a.bin" "/tmp/a.bin" 3 none none
          [(1, none), (2, some "boom")]).tail.filter isBroadcastProgress
        = (List.range ([(1, none), (2, some "boom")] : List (Nat × Option String)).length).map
            (fun i => ServerMessage.BroadcastTransferProgress 9 (i + 1)
              ([(1, none), (2, some "boom")] : List (Nat × Option String)).length)
      ∧ (broadcastEvents 9 "a.bin" "/tmp/a.bin" 3 none none
          [(1, none), (2, some "boom")]).tail.filter isFileTransferError
        = ([(1, none), (2, some "boom")] : List (Nat × Option String)).filterMap
            (fun p => p.2.map (fun e => ServerMessage.FileTransferError 9 (some p.1) e))
      ∧ (∃ pre, (broadcastEvents 9 "a.bin" "/tmp/a.bin" 3 none none
            [(1, none), (2, some "boom")]).tail
          = pre ++ [ServerMessage.BroadcastTransferComplete 9
              (countSucc [(1, none), (2, some "boom")])
              (countFail [(1, none), (2, some "boom")])]
          ∧ pre.filter isBroadcastComplete = [])
      ∧ countSucc [(1, none), (2, some "boom")]
          + countFail [(1, none), (2, some "boom")]
          = ([(1, none), (2, some "boom")] : List (Nat × Option String)).length) :=
  ⟨by decide,
    broadcast_events_shape 9 "a.bin" "/tmp/a.bin" 3 none none
      [(1, none), (2, some "boom")] (by decide)⟩
